import Mathlib

/-!
Verification of the SigLIP zero-shot image/text matching example
(`candle-examples/examples/siglip/main.rs`).

The pipeline is embedded shallowly:
* image tensors use exact rationals (`ℚ`) in place of `f32` — the affine
  normalization `x * (2/255) - 1` is exact there;
* the probability post-processing uses real numbers (`ℝ`) with `Real.exp`,
  the idealization of `f32` softmax;
* fallible stages return `Except String`; the Rust `usize` subtraction in the
  padding loop, which panics on underflow, is modelled with `Option`;
* external collaborators (the `image` crate decoder, the `tokenizers` crate
  encoder, the scoring model) are parameters: a decode outcome, an encoding
  function, and a scoring function.
Operations from candle-core / candle-nn (`Tensor::stack`, `Tensor::new`,
`softmax`) are not part of the example source; they are modelled from the
specification and marked as such.
-/

set_option autoImplicit false

namespace Siglip

universe u v

/-- A tensor: a shape (list of dimension sizes) together with row-major flat
data, following candle's layout. -/
structure Tensor (α : Type u) where
  shape : List Nat
  data : List α
deriving DecidableEq, Repr

/-- candle `Tensor::from_vec`: wrap a flat buffer with a rank-3 shape. The
length invariant `data.length = shape.prod` that candle checks at runtime is
carried as a hypothesis of the theorems instead (`to_rgb8().into_raw()` of an
`image_size × image_size` RGB image always has length `image_size² * 3`). -/
def Tensor.from_vec {α : Type u} (data : List α) (shape : List Nat) : Tensor α :=
  ⟨shape, data⟩

/-- Row-major enumeration of a `(d2, d0, d1)`-shaped grid of values: the
outer index `c` runs over `d2`, then `h` over `d0`, then `w` over `d1`. -/
def grid3 {α : Type u} (d0 d1 d2 : Nat) (f : Nat → Nat → Nat → α) : List α :=
  ((List.range d2).map (fun c =>
    ((List.range d0).map (fun h =>
      (List.range d1).map (fun w => f c h w))).flatten)).flatten

/-- `Tensor::permute((2, 0, 1))` on a rank-3 tensor of shape `(d0, d1, d2)`:
the result has shape `(d2, d0, d1)` and its element at index `(c, h, w)` is
the input element at index `(h, w, c)`, i.e. flat index `h*(d1*d2) + w*d2 + c`
of the row-major buffer. Tensors of other ranks are returned unchanged (the
example only permutes rank-3 tensors). -/
def Tensor.permute201 {α : Type u} [Inhabited α] (t : Tensor α) : Tensor α :=
  match t.shape with
  | [d0, d1, d2] =>
      ⟨[d2, d0, d1],
        grid3 d0 d1 d2 (fun c h w =>
          t.data.getD (h * (d1 * d2) + w * d2 + c) default)⟩
  | _ => t

/-- `Tensor::to_dtype(DType::F32)` on an integer tensor: cast every element.
`f32` holds every integer in `[0, 255]` exactly; we use `ℚ`. -/
def Tensor.toF32 (t : Tensor Nat) : Tensor ℚ :=
  ⟨t.shape, t.data.map (fun x : Nat => (x : ℚ))⟩

/-- `Tensor::affine(mul, add)`: elementwise `x * mul + add`. -/
def Tensor.affine (t : Tensor ℚ) (mul add : ℚ) : Tensor ℚ :=
  ⟨t.shape, t.data.map (fun x => x * mul + add)⟩

/-- Modelled from the spec: candle's `Tensor::stack(&ts, 0)` (candle-core,
not under `src/`). Per §4.2 the batcher requires every input tensor to share
one shape and fails with `ShapeMismatchError` otherwise; the stacked result
has the input count as its leading dimension, so at least one tensor is
required to determine a shape. Row-major stacking concatenates the buffers. -/
def Tensor.stack {α : Type u} [DecidableEq α] (ts : List (Tensor α)) :
    Except String (Tensor α) :=
  match ts with
  | [] => Except.error "stack requires at least one tensor"
  | t :: _ =>
      if ∀ u ∈ ts, u.shape = t.shape then
        Except.ok ⟨ts.length :: t.shape, (ts.map Tensor.data).flatten⟩
      else Except.error "shape mismatch"

/-- Outcome of the external image decode + `resize_to_fill` + `to_rgb8` +
`into_raw` steps (the `image` crate, an external collaborator): either the raw
RGB8 byte buffer of the resized square image, or a decode error. -/
abbrev DecodeResult := Except String (List Nat)

/-- The pure tail of `load_image`: from the raw RGB8 buffer of the resized
image, build the `(image_size, image_size, 3)` tensor, permute to channel
first, cast to float and apply `affine(2/255, -1)`. -/
def load_image_rgb (image_size : Nat) (raw : List Nat) : Tensor ℚ :=
  (((Tensor.from_vec raw [image_size, image_size, 3]).permute201).toF32).affine
    (2 / 255) (-1)

/-- `load_image`: decode errors propagate (`?`), otherwise the pure pipeline
runs on the decoded buffer. -/
def load_image (image_size : Nat) (decoded : DecodeResult) :
    Except String (Tensor ℚ) :=
  match decoded with
  | Except.error e => Except.error e
  | Except.ok raw => Except.ok (load_image_rgb image_size raw)

/-- The accumulation loop of `load_images`: load each path in order, stopping
at the first error (`?` inside the `for` loop). -/
def load_images_loop (image_size : Nat) :
    List DecodeResult → Except String (List (Tensor ℚ))
  | [] => Except.ok []
  | p :: rest =>
      match load_image image_size p with
      | Except.error e => Except.error e
      | Except.ok t =>
          match load_images_loop image_size rest with
          | Except.error e => Except.error e
          | Except.ok ts => Except.ok (t :: ts)

/-- `load_images`: load every path, then stack the tensors along dim 0. -/
def load_images (paths : List DecodeResult) (image_size : Nat) :
    Except String (Tensor ℚ) :=
  match load_images_loop image_size paths with
  | Except.error e => Except.error e
  | Except.ok images => Tensor.stack images

/-- Rust `usize` subtraction `a - b`: in the source it is unchecked and
underflow is a panic (`attempt to subtract with overflow`); modelled as
`none` on underflow. -/
def checked_sub (a b : Nat) : Option Nat :=
  if b ≤ a then some (a - b) else none

/-- One iteration of the padding loop of `tokenize_sequences`:
`let len_diff = max_len - token_vec.len(); if len_diff > 0 \x7b extend \x7d`. -/
def pad_token_vec (max_len pad_id : Nat) (token_vec : List Nat) :
    Option (List Nat) :=
  match checked_sub max_len token_vec.length with
  | none => none
  | some len_diff =>
      some (if 0 < len_diff then token_vec ++ List.replicate len_diff pad_id
            else token_vec)

/-- The padding loop of `tokenize_sequences` over all encoded rows, in order;
a panic in any iteration aborts (modelled as `none`). -/
def pad_tokens_loop (max_len pad_id : Nat) :
    List (List Nat) → Option (List (List Nat))
  | [] => some []
  | tv :: rest =>
      match pad_token_vec max_len pad_id tv with
      | none => none
      | some padded =>
          match pad_tokens_loop max_len pad_id rest with
          | none => none
          | some rest_padded => some (padded :: rest_padded)

/-- The hardcoded fallback text candidates used when `--sequences` is not
supplied. -/
def default_sequences : List String :=
  ["a cycling race", "a photo of two cats", "a robot holding a candle"]

/-- Modelled from the spec: `Tensor::new` on a vector of token-id rows
(candle-core `NdArray` shape inference, not under `src/`). The shape is
`(number of rows, row length)`; per §3 the TextBatch has shape
`(M, max_position_embeddings)`, and per the §8 scenario an empty text list
fails with an error instead of yielding an empty batch; ragged rows cannot
form a rectangular matrix and also fail. -/
def Tensor.new2d (rows : List (List Nat)) : Except String (Tensor Nat) :=
  match rows with
  | [] => Except.error "empty array"
  | r :: _ =>
      if ∀ u ∈ rows, u.length = r.length then
        Except.ok ⟨[rows.length, r.length], rows.flatten⟩
      else Except.error "shape mismatch"

/-- `tokenize_sequences`: choose the supplied texts or the defaults, encode
each text with the external tokenizer (`encode`, the natural token-id
sequence including special tokens), right-pad every row to
`max_len = max_position_embeddings` with `pad_id`, and build the id matrix.
Returns the matrix together with the text list used. -/
def tokenize_sequences (max_len pad_id : Nat) (encode : String → List Nat)
    (sequences : Option (List String)) :
    Except String (Tensor Nat × List String) :=
  let vec_seq := sequences.getD default_sequences
  let tokens := vec_seq.map encode
  match pad_tokens_loop max_len pad_id tokens with
  | none => Except.error "attempt to subtract with overflow"
  | some padded =>
      match Tensor.new2d padded with
      | Except.error e => Except.error e
      | Except.ok input_ids => Except.ok (input_ids, vec_seq)

/-- Maximum of a row, as `max_keepdim` computes it on a nonempty dimension
(an empty row would be a candle error; the defs below are only applied to
rows of positive length). -/
noncomputable def rowMax : List ℝ → ℝ
  | [] => 0
  | x :: xs => xs.foldl max x

/-- Modelled from the spec: `candle_nn::ops::softmax(xs, 1)` on one row of
the `(N, M)` logits matrix (candle-nn, not under `src/`). Per §4.5: subtract
the row max, exponentiate, and normalize so the row sums to 1. -/
noncomputable def softmaxRow (row : List ℝ) : List ℝ :=
  let m := rowMax row
  let exps := row.map (fun x => Real.exp (x - m))
  exps.map (fun e => e / exps.sum)

/-- `softmax(&logits_per_image, 1)?` followed by `flatten_all` and
`to_vec1`: per-row softmax of the logits (given as its list of rows),
flattened row-major. -/
noncomputable def softmax_image_vec (logits : List (List ℝ)) : List ℝ :=
  (logits.map softmaxRow).flatten

/-- `probability_vec`: every flattened softmax value scaled by 100. -/
noncomputable def probability_vec (logits : List (List ℝ)) : List ℝ :=
  (softmax_image_vec logits).map (fun v => v * 100)

/-- `probability_per_image = probability_vec.len() / vec_imgs.len()`
(integer division; in Rust a division by zero here would panic). -/
noncomputable def probability_per_image (vec_imgs : List String)
    (logits : List (List ℝ)) : Nat :=
  (probability_vec logits).length / vec_imgs.length

/-- The slice `&probability_vec[start..end]` taken for image `i`, where
`start = i * probability_per_image` and `end = start + probability_per_image`
(an out-of-bounds range would panic in Rust; the bounds are proved below). -/
noncomputable def imageGroup (vec_imgs : List String) (logits : List (List ℝ))
    (i : Nat) : List ℝ :=
  ((probability_vec logits).drop (i * probability_per_image vec_imgs logits)).take
    (probability_per_image vec_imgs logits)

/-- The report loop of `main`: for each image path, in input order, the list
of `(probability, text)` lines, where line `j` pairs the `j`-th probability of
that image's slice with `vec_seq[j]` (the `j`-th input text; `none` models the
panic of an out-of-bounds `vec_seq[j]`). -/
noncomputable def mainReport (vec_imgs vec_seq : List String)
    (logits : List (List ℝ)) : List (String × List (ℝ × Option String)) :=
  (List.range vec_imgs.length).map (fun i =>
    (vec_imgs.getD i "",
     (imageGroup vec_imgs logits i).enum.map (fun jp => (jp.2, vec_seq[jp.1]?))))

/-- The fallible part of `main` after configuration: load and batch the
images, tokenize the texts, score (the opaque external model, returning the
`logits_per_image` rows), and build the report. Any stage error aborts
before a report exists. -/
noncomputable def run_pipeline (image_size max_len pad_id : Nat)
    (score : Tensor ℚ → Tensor Nat → Except String (List (List ℝ)))
    (paths : List DecodeResult) (vec_imgs : List String)
    (encode : String → List Nat) (sequences : Option (List String)) :
    Except String (List (String × List (ℝ × Option String))) :=
  match load_images paths image_size with
  | Except.error e => Except.error e
  | Except.ok images =>
      match tokenize_sequences max_len pad_id encode sequences with
      | Except.error e => Except.error e
      | Except.ok (input_ids, vec_seq) =>
          match score images input_ids with
          | Except.error e => Except.error e
          | Except.ok logits =>
              Except.ok (mainReport vec_imgs vec_seq logits)

/-! ### List helper lemmas -/

theorem getD_replicate_of_lt {α : Type u} (a d : α) (n i : Nat) (h : i < n) :
    (List.replicate n a).getD i d = a := by
  simp [List.getD_eq_getElem?_getD, List.getElem?_replicate, h]

theorem getD_eq_default_or_mem {α : Type u} (l : List α) (i : Nat) (d : α) :
    l.getD i d = d ∨ l.getD i d ∈ l := by
  rw [List.getD_eq_getElem?_getD]
  cases h : l[i]? with
  | none => exact Or.inl rfl
  | some a => exact Or.inr (by simpa using List.getElem?_mem h)

theorem getD_map_of_lt {α : Type u} {β : Type v} (f : α → β) (l : List α)
    (i : Nat) (d : α) (e : β) (h : i < l.length) :
    (l.map f).getD i e = f (l.getD i d) := by
  rw [List.getD_eq_getElem?_getD, List.getD_eq_getElem?_getD,
    List.getElem?_map]
  have hsome : l[i]? = some l[i] := List.getElem?_eq_some.mpr ⟨h, rfl⟩
  simp [hsome]

theorem length_flatten_of_const {α : Type u} (L : Nat) :
    ∀ ls : List (List α), (∀ l ∈ ls, l.length = L) →
      ls.flatten.length = ls.length * L := by
  intro ls
  induction ls with
  | nil => simp
  | cons hd tl ih =>
      intro hlen
      have hhd : hd.length = L := hlen hd (by simp)
      have htl : tl.flatten.length = tl.length * L :=
        ih (fun l hl => hlen l (List.mem_cons_of_mem _ hl))
      simp [List.flatten_cons, hhd, htl, Nat.succ_mul, Nat.add_comm]

theorem flatten_drop_take {α : Type u} (L : Nat) :
    ∀ (ls : List (List α)) (i : Nat), (∀ l ∈ ls, l.length = L) →
      i < ls.length → (ls.flatten.drop (i * L)).take L = ls.getD i [] := by
  intro ls
  induction ls with
  | nil => intro i _ hi; exact absurd hi (by simp)
  | cons hd tl ih =>
      intro i hlen hi
      have hhd : hd.length = L := hlen hd (by simp)
      cases i with
      | zero =>
          rw [List.flatten_cons, Nat.zero_mul, List.drop_zero, ← hhd,
            List.take_left, List.getD_cons_zero]
      | succ n =>
          have hmul : (n + 1) * L = hd.length + n * L := by
            rw [hhd]; ring
          rw [List.flatten_cons, hmul, List.drop_append, List.getD_cons_succ]
          exact ih n (fun l hl => hlen l (List.mem_cons_of_mem _ hl))
            (Nat.lt_of_succ_lt_succ hi)

theorem of_mem_grid3 {α : Type u} (d0 d1 d2 : Nat) (f : Nat → Nat → Nat → α)
    (v : α) (hv : v ∈ grid3 d0 d1 d2 f) :
    ∃ c h w, c < d2 ∧ h < d0 ∧ w < d1 ∧ v = f c h w := by
  unfold grid3 at hv
  rcases List.mem_flatten.mp hv with ⟨l, hl, hvl⟩
  rcases List.mem_map.mp hl with ⟨c, hc, rfl⟩
  rcases List.mem_flatten.mp hvl with ⟨l2, hl2, hvl2⟩
  rcases List.mem_map.mp hl2 with ⟨h, hh, rfl⟩
  rcases List.mem_map.mp hvl2 with ⟨w, hw, rfl⟩
  exact ⟨c, h, w, List.mem_range.mp hc, List.mem_range.mp hh,
    List.mem_range.mp hw, rfl⟩

theorem length_grid3 {α : Type u} (d0 d1 d2 : Nat) (f : Nat → Nat → Nat → α) :
    (grid3 d0 d1 d2 f).length = d2 * (d0 * d1) := by
  unfold grid3
  rw [length_flatten_of_const (d0 * d1)]
  · simp
  · intro l hl
    rcases List.mem_map.mp hl with ⟨c, hc, rfl⟩
    rw [length_flatten_of_const d1]
    · simp
    · intro l2 hl2
      rcases List.mem_map.mp hl2 with ⟨h, hh, rfl⟩
      simp

theorem sum_map_div (l : List ℝ) (c : ℝ) :
    (l.map (fun x => x / c)).sum = l.sum / c := by
  induction l with
  | nil => simp
  | cons x xs ih => simp [ih, add_div]

theorem sum_map_mul_const (l : List ℝ) (c : ℝ) :
    (l.map (fun x => x * c)).sum = l.sum * c := by
  induction l with
  | nil => simp
  | cons x xs ih => simp [ih, add_mul]

theorem enum_fst_lt {α : Type u} (l : List α) (p : Nat × α) (hp : p ∈ l.enum) :
    p.1 < l.length := by
  rcases p with ⟨i, x⟩
  exact (List.mem_enum hp).1

/-! ### Facts about softmax rows and the probability vector -/

theorem softmaxRow_length (row : List ℝ) :
    (softmaxRow row).length = row.length := by
  simp [softmaxRow]

theorem softmaxRow_sum (row : List ℝ) (h : row ≠ []) :
    (softmaxRow row).sum = 1 := by
  have hpos : 0 < (row.map (fun x => Real.exp (x - rowMax row))).sum := by
    apply List.sum_pos
    · intro x hx
      rcases List.mem_map.mp hx with ⟨y, _, rfl⟩
      exact Real.exp_pos _
    · simpa using h
  simp only [softmaxRow]
  rw [sum_map_div]
  exact div_self (ne_of_gt hpos)

theorem probability_vec_length (logits : List (List ℝ)) (M : Nat)
    (hrow : ∀ r ∈ logits, r.length = M) :
    (probability_vec logits).length = logits.length * M := by
  simp only [probability_vec, softmax_image_vec, List.length_map]
  rw [length_flatten_of_const M]
  · simp
  · intro l hl
    rcases List.mem_map.mp hl with ⟨r, hr, rfl⟩
    rw [softmaxRow_length]
    exact hrow r hr

theorem probability_per_image_eq (vec_imgs vec_seq : List String)
    (logits : List (List ℝ)) (hN : 0 < vec_imgs.length)
    (hlen : logits.length = vec_imgs.length)
    (hrow : ∀ r ∈ logits, r.length = vec_seq.length) :
    probability_per_image vec_imgs logits = vec_seq.length := by
  unfold probability_per_image
  rw [probability_vec_length logits vec_seq.length hrow, hlen,
    Nat.mul_div_cancel_left _ hN]

theorem imageGroup_eq (vec_imgs vec_seq : List String)
    (logits : List (List ℝ)) (hN : 0 < vec_imgs.length)
    (hlen : logits.length = vec_imgs.length)
    (hrow : ∀ r ∈ logits, r.length = vec_seq.length)
    (i : Nat) (hi : i < vec_imgs.length) :
    imageGroup vec_imgs logits i
      = (softmaxRow (logits.getD i [])).map (fun v => v * 100) := by
  have hppi := probability_per_image_eq vec_imgs vec_seq logits hN hlen hrow
  unfold imageGroup
  rw [hppi]
  unfold probability_vec softmax_image_vec
  rw [← List.map_drop, ← List.map_take]
  rw [flatten_drop_take vec_seq.length (logits.map softmaxRow) i
    (by
      intro l hl
      rcases List.mem_map.mp hl with ⟨r, hr, rfl⟩
      rw [softmaxRow_length]
      exact hrow r hr)
    (by simpa [hlen] using hi)]
  rw [getD_map_of_lt softmaxRow logits i [] [] (by rw [hlen]; exact hi)]

theorem getD_mem_of_lt {α : Type u} (l : List α) (i : Nat) (d : α)
    (h : i < l.length) : l.getD i d ∈ l := by
  rw [List.getD_eq_getElem?_getD]
  have hsome : l[i]? = some l[i] := List.getElem?_eq_some.mpr ⟨h, rfl⟩
  rw [hsome]
  exact List.getElem_mem h

/-! ### Claim theorems: the report stage -/

/-- C1: for an `(N, M)` logits matrix, the flat probability vector re-sliced
as `values[i*M .. i*M+M]` reconstructs exactly row `i` of the per-row softmax
output (scaled by 100), the report lists images in input order (entry `i` is
image `i` with exactly that group), and within a group the `j`-th probability
is paired with `vec_seq[j]`, the `j`-th input text — no re-sorting anywhere. -/
theorem report_groups_align (vec_imgs vec_seq : List String)
    (logits : List (List ℝ)) (hN : 0 < vec_imgs.length)
    (hlen : logits.length = vec_imgs.length)
    (hrow : ∀ r ∈ logits, r.length = vec_seq.length) :
    (mainReport vec_imgs vec_seq logits).length = vec_imgs.length
    ∧ ∀ i < vec_imgs.length,
        imageGroup vec_imgs logits i
          = (softmaxRow (logits.getD i [])).map (fun v => v * 100)
        ∧ (mainReport vec_imgs vec_seq logits)[i]?
            = some (vec_imgs.getD i "",
                ((softmaxRow (logits.getD i [])).map (fun v => v * 100)).enum.map
                  (fun jp => (jp.2, vec_seq[jp.1]?)))
        ∧ ∀ j < vec_seq.length, vec_seq[j]? = some (vec_seq.getD j "") := by
  refine ⟨by simp [mainReport], ?_⟩
  intro i hi
  have hgroup := imageGroup_eq vec_imgs vec_seq logits hN hlen hrow i hi
  refine ⟨hgroup, ?_, ?_⟩
  · unfold mainReport
    rw [List.getElem?_map, List.getElem?_range hi]
    simp only [Option.map_some']
    rw [hgroup]
  · intro j hj
    have : vec_seq.getD j "" = vec_seq[j] := by
      rw [List.getD_eq_getElem?_getD, List.getElem?_eq_some.mpr ⟨hj, rfl⟩]
      rfl
    rw [this]
    exact List.getElem?_eq_some.mpr ⟨hj, rfl⟩

/-- C1 witness: the scenario with 2 images and 3 texts. -/
theorem report_groups_align_witness :
    (0 < (["img0", "img1"] : List String).length)
    ∧ (([[1, 0, 0], [0, 1, 0]] : List (List ℝ)).length
        = (["img0", "img1"] : List String).length)
    ∧ (∀ r ∈ ([[1, 0, 0], [0, 1, 0]] : List (List ℝ)),
        r.length = (["t0", "t1", "t2"] : List String).length)
    ∧ ((mainReport ["img0", "img1"] ["t0", "t1", "t2"]
          [[1, 0, 0], [0, 1, 0]]).length
        = (["img0", "img1"] : List String).length
      ∧ ∀ i < (["img0", "img1"] : List String).length,
          imageGroup ["img0", "img1"] [[1, 0, 0], [0, 1, 0]] i
            = (softmaxRow (([[1, 0, 0], [0, 1, 0]] :
                List (List ℝ)).getD i [])).map (fun v => v * 100)
          ∧ (mainReport ["img0", "img1"] ["t0", "t1", "t2"]
                [[1, 0, 0], [0, 1, 0]])[i]?
              = some ((["img0", "img1"] : List String).getD i "",
                  ((softmaxRow (([[1, 0, 0], [0, 1, 0]] :
                      List (List ℝ)).getD i [])).map
                    (fun v => v * 100)).enum.map
                    (fun jp => (jp.2, (["t0", "t1", "t2"] :
                      List String)[jp.1]?)))
          ∧ ∀ j < (["t0", "t1", "t2"] : List String).length,
              (["t0", "t1", "t2"] : List String)[j]?
                = some ((["t0", "t1", "t2"] : List String).getD j "")) :=
  ⟨by norm_num, by norm_num,
   by intro r hr; fin_cases hr <;> rfl,
   report_groups_align ["img0", "img1"] ["t0", "t1", "t2"]
     [[1, 0, 0], [0, 1, 0]] (by norm_num) (by norm_num)
     (by intro r hr; fin_cases hr <;> rfl)⟩

/-- C2: the ranker applies softmax per image row and scales by 100, so each
image's `M` reported percentages sum to exactly 100 (exact real arithmetic),
in particular within the `1e-3` tolerance. -/
theorem report_percentages_sum_100 (vec_imgs vec_seq : List String)
    (logits : List (List ℝ)) (hN : 0 < vec_imgs.length)
    (hM : vec_seq ≠ []) (hlen : logits.length = vec_imgs.length)
    (hrow : ∀ r ∈ logits, r.length = vec_seq.length) :
    ∀ i < vec_imgs.length,
      (imageGroup vec_imgs logits i).sum = 100
      ∧ |(imageGroup vec_imgs logits i).sum - 100| ≤ 1 / 1000 := by
  intro i hi
  have hgroup := imageGroup_eq vec_imgs vec_seq logits hN hlen hrow i hi
  have hmem : logits.getD i [] ∈ logits :=
    getD_mem_of_lt logits i [] (by rw [hlen]; exact hi)
  have hrownil : logits.getD i [] ≠ [] := by
    have hlenrow := hrow _ hmem
    intro hcon
    rw [hcon] at hlenrow
    exact hM (List.eq_nil_of_length_eq_zero hlenrow.symm)
  have hsum : (imageGroup vec_imgs logits i).sum = 100 := by
    rw [hgroup, sum_map_mul_const, softmaxRow_sum _ hrownil, one_mul]
  exact ⟨hsum, by rw [hsum]; norm_num⟩

/-- C2 witness: the 2×3 scenario again; both rows sum to 100. -/
theorem report_percentages_sum_100_witness :
    (0 < (["img0", "img1"] : List String).length)
    ∧ ((["t0", "t1", "t2"] : List String) ≠ [])
    ∧ (([[1, 0, 0], [0, 1, 0]] : List (List ℝ)).length
        = (["img0", "img1"] : List String).length)
    ∧ (∀ r ∈ ([[1, 0, 0], [0, 1, 0]] : List (List ℝ)),
        r.length = (["t0", "t1", "t2"] : List String).length)
    ∧ (∀ i < (["img0", "img1"] : List String).length,
        (imageGroup ["img0", "img1"] [[1, 0, 0], [0, 1, 0]] i).sum = 100
        ∧ |(imageGroup ["img0", "img1"] [[1, 0, 0], [0, 1, 0]] i).sum - 100|
            ≤ 1 / 1000) :=
  ⟨by norm_num, by simp, by norm_num,
   by intro r hr; fin_cases hr <;> rfl,
   report_percentages_sum_100 ["img0", "img1"] ["t0", "t1", "t2"]
     [[1, 0, 0], [0, 1, 0]] (by norm_num) (by simp) (by norm_num)
     (by intro r hr; fin_cases hr <;> rfl)⟩

/-- C9: with `logits` of shape `(N, M)`, `N = vec_imgs.length ≥ 1`,
`M = vec_seq.length`, the flat vector has length `N*M`, the integer division
`probability_per_image` is exact and equals `M`, every slice
`[i*M .. i*M+M]` is within bounds, every report row has exactly `M` lines,
and every `vec_seq` lookup resolves (`some`) — the report loop cannot
panic. -/
theorem report_loop_in_bounds (vec_imgs vec_seq : List String)
    (logits : List (List ℝ)) (hN : 0 < vec_imgs.length)
    (hlen : logits.length = vec_imgs.length)
    (hrow : ∀ r ∈ logits, r.length = vec_seq.length) :
    (probability_vec logits).length = vec_imgs.length * vec_seq.length
    ∧ probability_per_image vec_imgs logits = vec_seq.length
    ∧ (∀ i < vec_imgs.length,
        i * probability_per_image vec_imgs logits
          + probability_per_image vec_imgs logits
          ≤ (probability_vec logits).length)
    ∧ (∀ entry ∈ mainReport vec_imgs vec_seq logits,
        entry.2.length = vec_seq.length
        ∧ ∀ pr ∈ entry.2, ∃ t, pr.2 = some t) := by
  have hplen : (probability_vec logits).length
      = vec_imgs.length * vec_seq.length := by
    rw [probability_vec_length logits vec_seq.length hrow, hlen]
  have hppi := probability_per_image_eq vec_imgs vec_seq logits hN hlen hrow
  refine ⟨hplen, hppi, ?_, ?_⟩
  · intro i hi
    rw [hppi, hplen, ← Nat.succ_mul]
    exact Nat.mul_le_mul_right _ (Nat.succ_le_of_lt hi)
  · intro entry hentry
    unfold mainReport at hentry
    rcases List.mem_map.mp hentry with ⟨i, hirange, rfl⟩
    have hi : i < vec_imgs.length := List.mem_range.mp hirange
    have hgroup := imageGroup_eq vec_imgs vec_seq logits hN hlen hrow i hi
    have hglen : (imageGroup vec_imgs logits i).length = vec_seq.length := by
      rw [hgroup, List.length_map, softmaxRow_length]
      exact hrow _ (getD_mem_of_lt logits i [] (by rw [hlen]; exact hi))
    constructor
    · simp only [List.length_map, List.enum_length]
      exact hglen
    · intro pr hpr
      rcases List.mem_map.mp hpr with ⟨jp, hjp, rfl⟩
      have hj : jp.1 < vec_seq.length := by
        rw [← hglen]
        exact enum_fst_lt _ _ hjp
      exact ⟨vec_seq[jp.1], List.getElem?_eq_some.mpr ⟨hj, rfl⟩⟩

/-- C9 witness: the 2×3 scenario; all bounds hold. -/
theorem report_loop_in_bounds_witness :
    (0 < (["img0", "img1"] : List String).length)
    ∧ (([[1, 0, 0], [0, 1, 0]] : List (List ℝ)).length
        = (["img0", "img1"] : List String).length)
    ∧ (∀ r ∈ ([[1, 0, 0], [0, 1, 0]] : List (List ℝ)),
        r.length = (["t0", "t1", "t2"] : List String).length)
    ∧ ((probability_vec [[1, 0, 0], [0, 1, 0]]).length
        = (["img0", "img1"] : List String).length
            * (["t0", "t1", "t2"] : List String).length
      ∧ probability_per_image ["img0", "img1"] [[1, 0, 0], [0, 1, 0]]
          = (["t0", "t1", "t2"] : List String).length
      ∧ (∀ i < (["img0", "img1"] : List String).length,
          i * probability_per_image ["img0", "img1"] [[1, 0, 0], [0, 1, 0]]
            + probability_per_image ["img0", "img1"] [[1, 0, 0], [0, 1, 0]]
            ≤ (probability_vec [[1, 0, 0], [0, 1, 0]]).length)
      ∧ (∀ entry ∈ mainReport ["img0", "img1"] ["t0", "t1", "t2"]
            [[1, 0, 0], [0, 1, 0]],
          entry.2.length = (["t0", "t1", "t2"] : List String).length
          ∧ ∀ pr ∈ entry.2, ∃ t, pr.2 = some t)) :=
  ⟨by norm_num, by norm_num,
   by intro r hr; fin_cases hr <;> rfl,
   report_loop_in_bounds ["img0", "img1"] ["t0", "t1", "t2"]
     [[1, 0, 0], [0, 1, 0]] (by norm_num) (by norm_num)
     (by intro r hr; fin_cases hr <;> rfl)⟩

/-! ### Claim theorems: image loading -/

theorem load_image_rgb_data_eq (s : Nat) (raw : List Nat) :
    (load_image_rgb s raw).data
      = List.map (fun x => x * (2 / 255) + (-1))
          (List.map (fun x : Nat => (x : ℚ))
            (grid3 s s 3 (fun c h w =>
              raw.getD (h * (s * 3) + w * 3 + c) default))) := rfl

theorem mem_load_image_rgb_data (s : Nat) (raw : List Nat) (v : ℚ)
    (hv : v ∈ (load_image_rgb s raw).data) :
    ∃ c h w, c < 3 ∧ h < s ∧ w < s
      ∧ v = (raw.getD (h * (s * 3) + w * 3 + c) 0 : ℚ) * (2 / 255) + (-1) := by
  rw [load_image_rgb_data_eq] at hv
  rcases List.mem_map.mp hv with ⟨q, hq, rfl⟩
  rcases List.mem_map.mp hq with ⟨b, hb, rfl⟩
  rcases of_mem_grid3 _ _ _ _ _ hb with ⟨c, h, w, hc, hh, hw, rfl⟩
  exact ⟨c, h, w, hc, hh, hw, rfl⟩

theorem load_image_rgb_data_length (s : Nat) (raw : List Nat) :
    (load_image_rgb s raw).data.length = 3 * (s * s) := by
  rw [load_image_rgb_data_eq, List.length_map, List.length_map, length_grid3]

theorem pixel_index_lt (s c h w : Nat) (hc : c < 3) (hh : h < s) (hw : w < s) :
    h * (s * 3) + w * 3 + c < s * s * 3 := by
  have h1 : w * 3 + c < s * 3 := by
    calc w * 3 + c < w * 3 + 3 := by omega
      _ = (w + 1) * 3 := by ring
      _ ≤ s * 3 := Nat.mul_le_mul_right 3 hw
  have h2 : h * (s * 3) + (w * 3 + c) < s * (s * 3) := by
    calc h * (s * 3) + (w * 3 + c) < h * (s * 3) + s * 3 := by omega
      _ = (h + 1) * (s * 3) := by ring
      _ ≤ s * (s * 3) := Nat.mul_le_mul_right (s * 3) hh
  calc h * (s * 3) + w * 3 + c = h * (s * 3) + (w * 3 + c) := by omega
    _ < s * (s * 3) := h2
    _ = s * s * 3 := by ring

/-- C3: for every decodable image (raw RGB8 buffer of the resized square) and
every `image_size`, `load_image` yields a channel-first tensor of shape
exactly `(3, image_size, image_size)` whose values are
`x * (2/255) - 1` of the bytes, hence all in `[-1, 1]`; an all-255 buffer
maps to all values exactly `1` and an all-0 buffer to exactly `-1`. -/
theorem load_image_normalized (s : Nat) (raw : List Nat)
    (hlen : raw.length = s * s * 3) (hbyte : ∀ b ∈ raw, b ≤ 255) :
    (load_image_rgb s raw).shape = [3, s, s]
    ∧ (load_image_rgb s raw).data.length = 3 * (s * s)
    ∧ (∀ v ∈ (load_image_rgb s raw).data, -1 ≤ v ∧ v ≤ 1)
    ∧ (raw = List.replicate (s * s * 3) 255 →
        ∀ v ∈ (load_image_rgb s raw).data, v = 1)
    ∧ (raw = List.replicate (s * s * 3) 0 →
        ∀ v ∈ (load_image_rgb s raw).data, v = -1) := by
  refine ⟨rfl, load_image_rgb_data_length s raw, ?_, ?_, ?_⟩
  · intro v hv
    rcases mem_load_image_rgb_data s raw v hv with ⟨c, h, w, _, _, _, rfl⟩
    have hb : raw.getD (h * (s * 3) + w * 3 + c) 0 ≤ 255 := by
      rcases getD_eq_default_or_mem raw (h * (s * 3) + w * 3 + c) 0 with he | hm
      · omega
      · exact hbyte _ hm
    have hbq : ((raw.getD (h * (s * 3) + w * 3 + c) 0 : Nat) : ℚ) ≤ 255 := by
      exact_mod_cast hb
    have hbq0 : (0 : ℚ) ≤ ((raw.getD (h * (s * 3) + w * 3 + c) 0 : Nat) : ℚ) := by
      positivity
    constructor <;> linarith
  · intro hwhite v hv
    rcases mem_load_image_rgb_data s raw v hv with ⟨c, h, w, hc, hh, hw, rfl⟩
    rw [hwhite, getD_replicate_of_lt 255 0 (s * s * 3) _
      (pixel_index_lt s c h w hc hh hw)]
    norm_num
  · intro hblack v hv
    subst hblack
    rcases mem_load_image_rgb_data s _ v hv with ⟨c, h, w, _, _, _, rfl⟩
    have hb0 : (List.replicate (s * s * 3) 0).getD
        (h * (s * 3) + w * 3 + c) 0 = 0 := by
      rcases getD_eq_default_or_mem (List.replicate (s * s * 3) 0)
          (h * (s * 3) + w * 3 + c) 0 with he | hm
      · exact he
      · exact List.eq_of_mem_replicate hm
    rw [hb0]
    norm_num

/-- C3 witness: a 1×1 all-white image; all hypotheses hold and the theorem
applies. -/
theorem load_image_normalized_witness :
    (([255, 255, 255] : List Nat).length = 1 * 1 * 3)
    ∧ (∀ b ∈ ([255, 255, 255] : List Nat), b ≤ 255)
    ∧ ((load_image_rgb 1 [255, 255, 255]).shape = [3, 1, 1]
      ∧ (load_image_rgb 1 [255, 255, 255]).data.length = 3 * (1 * 1)
      ∧ (∀ v ∈ (load_image_rgb 1 [255, 255, 255]).data, -1 ≤ v ∧ v ≤ 1)
      ∧ (([255, 255, 255] : List Nat) = List.replicate (1 * 1 * 3) 255 →
          ∀ v ∈ (load_image_rgb 1 [255, 255, 255]).data, v = 1)
      ∧ (([255, 255, 255] : List Nat) = List.replicate (1 * 1 * 3) 0 →
          ∀ v ∈ (load_image_rgb 1 [255, 255, 255]).data, v = -1)) :=
  ⟨by decide, by decide,
   load_image_normalized 1 [255, 255, 255] (by decide) (by decide)⟩

/-! ### Claim theorems: batching -/

theorem load_images_loop_all_ok (image_size : Nat) :
    ∀ raws : List (List Nat),
      load_images_loop image_size (raws.map Except.ok)
        = Except.ok (raws.map (load_image_rgb image_size)) := by
  intro raws
  induction raws with
  | nil => rfl
  | cons r rest ih => simp [load_images_loop, load_image, ih]

/-- C6: for K buffers that all load successfully at one `image_size`, the
batch is `Except.ok` with shape `(K, 3, image_size, image_size)`, and the
`i`-th slice of the flat batch buffer is exactly the data of
`load_image` of the `i`-th path — input order is preserved positionally.
Stacking tensors of differing shapes fails with an error. -/
theorem load_images_of_loop_ok (image_size : Nat) (paths : List DecodeResult)
    (ts : List (Tensor ℚ)) (h : load_images_loop image_size paths = Except.ok ts) :
    load_images paths image_size = Tensor.stack ts := by
  unfold load_images
  rw [h]

theorem load_images_stacks_in_order (image_size : Nat) (raws : List (List Nat))
    (hne : raws ≠ [])
    (hlen : ∀ r ∈ raws, r.length = image_size * image_size * 3) :
    (∃ t, load_images (raws.map Except.ok) image_size = Except.ok t
      ∧ t.shape = [raws.length, 3, image_size, image_size]
      ∧ t.data.length = raws.length * (3 * (image_size * image_size))
      ∧ ∀ i < raws.length,
          (t.data.drop (i * (3 * (image_size * image_size)))).take
              (3 * (image_size * image_size))
            = (load_image_rgb image_size (raws.getD i [])).data)
    ∧ (∀ (ts : List (Tensor ℚ)) (u v : Tensor ℚ), u ∈ ts → v ∈ ts →
        u.shape ≠ v.shape → ∃ e, Tensor.stack ts = Except.error e) := by
  constructor
  · obtain ⟨r₀, rest, rfl⟩ := List.exists_cons_of_ne_nil hne
    have hcond : ∀ u ∈ load_image_rgb image_size r₀
        :: rest.map (load_image_rgb image_size),
        u.shape = (load_image_rgb image_size r₀).shape := by
      intro u hu
      rcases List.mem_cons.mp hu with rfl | hu2
      · rfl
      · rcases List.mem_map.mp hu2 with ⟨r, _, rfl⟩
        rfl
    have hstack : Tensor.stack ((r₀ :: rest).map (load_image_rgb image_size))
        = Except.ok
            ⟨((r₀ :: rest).map (load_image_rgb image_size)).length
                :: [3, image_size, image_size],
              (((r₀ :: rest).map (load_image_rgb image_size)).map
                Tensor.data).flatten⟩ := by
      rw [List.map_cons]
      simp only [Tensor.stack]
      rw [if_pos hcond]
      rfl
    have hload := load_images_of_loop_ok image_size ((r₀ :: rest).map Except.ok)
      _ (load_images_loop_all_ok image_size (r₀ :: rest))
    have hconst : ∀ l ∈ ((r₀ :: rest).map (load_image_rgb image_size)).map
        Tensor.data, l.length = 3 * (image_size * image_size) := by
      intro l hl
      rcases List.mem_map.mp hl with ⟨t, ht, rfl⟩
      rcases List.mem_map.mp ht with ⟨r, _, rfl⟩
      exact load_image_rgb_data_length image_size r
    refine ⟨⟨((r₀ :: rest).map (load_image_rgb image_size)).length
        :: [3, image_size, image_size],
        (((r₀ :: rest).map (load_image_rgb image_size)).map
          Tensor.data).flatten⟩,
      by rw [hload, hstack], by simp, ?_, ?_⟩
    · show ((((r₀ :: rest).map (load_image_rgb image_size)).map
          Tensor.data).flatten).length = _
      rw [length_flatten_of_const (3 * (image_size * image_size)) _ hconst]
      simp
    · intro i hi
      show (((((r₀ :: rest).map (load_image_rgb image_size)).map
          Tensor.data).flatten).drop (i * (3 * (image_size * image_size)))).take
          (3 * (image_size * image_size)) = _
      rw [flatten_drop_take (3 * (image_size * image_size)) _ i hconst
        (by simpa using hi)]
      rw [List.map_map]
      exact getD_map_of_lt (Tensor.data ∘ load_image_rgb image_size)
        (r₀ :: rest) i [] [] hi
  · intro ts u v hu hv hne2
    cases ts with
    | nil => cases hu
    | cons t0 rest =>
        simp only [Tensor.stack]
        by_cases hall : ∀ w ∈ t0 :: rest, w.shape = t0.shape
        · exact absurd ((hall u hu).trans (hall v hv).symm) hne2
        · rw [if_neg hall]
          exact ⟨_, rfl⟩

/-- C6 witness: two 1×1 images batch to shape `(2, 3, 1, 1)`. -/
theorem load_images_stacks_in_order_witness :
    (([[0, 0, 0], [255, 255, 255]] : List (List Nat)) ≠ [])
    ∧ (∀ r ∈ ([[0, 0, 0], [255, 255, 255]] : List (List Nat)),
        r.length = 1 * 1 * 3)
    ∧ ((∃ t, load_images ([[0, 0, 0], [255, 255, 255]].map Except.ok) 1
          = Except.ok t
        ∧ t.shape = [([[0, 0, 0], [255, 255, 255]] : List (List Nat)).length,
            3, 1, 1]
        ∧ t.data.length
            = ([[0, 0, 0], [255, 255, 255]] : List (List Nat)).length
                * (3 * (1 * 1))
        ∧ ∀ i < ([[0, 0, 0], [255, 255, 255]] : List (List Nat)).length,
            (t.data.drop (i * (3 * (1 * 1)))).take (3 * (1 * 1))
              = (load_image_rgb 1
                  (([[0, 0, 0], [255, 255, 255]] :
                    List (List Nat)).getD i [])).data)
      ∧ (∀ (ts : List (Tensor ℚ)) (u v : Tensor ℚ), u ∈ ts → v ∈ ts →
          u.shape ≠ v.shape → ∃ e, Tensor.stack ts = Except.error e)) :=
  ⟨by decide, by decide,
   load_images_stacks_in_order 1 [[0, 0, 0], [255, 255, 255]]
     (by decide) (by decide)⟩

theorem load_images_loop_first_error (image_size : Nat) :
    ∀ (paths : List DecodeResult) (k : Nat) (e : String),
      paths[k]? = some (Except.error e) →
      (∀ j < k, ∃ raw, paths[j]? = some (Except.ok raw)) →
      load_images_loop image_size paths = Except.error e := by
  intro paths
  induction paths with
  | nil => intro k e hk _; simp at hk
  | cons p rest ih =>
      intro k e hk hbefore
      cases k with
      | zero =>
          have hp : p = Except.error e := by simpa using hk
          subst hp
          rfl
      | succ n =>
          obtain ⟨raw, hraw⟩ := hbefore 0 (Nat.succ_pos n)
          have hp : p = Except.ok raw := by simpa using hraw
          subst hp
          have hrest := ih n e (by simpa using hk) (fun j hj => by
            simpa using hbefore (j + 1) (Nat.succ_lt_succ hj))
          simp [load_images_loop, load_image, hrest]

/-- C7: if path `k` is the first failing one (all earlier paths decode fine),
`load_images` returns exactly that error and no batch tensor: the whole batch
aborts at the first failure, with no partial result. -/
theorem load_images_fail_fast (image_size : Nat) (paths : List DecodeResult)
    (k : Nat) (e : String) (hk : paths[k]? = some (Except.error e))
    (hbefore : ∀ j < k, ∃ raw, paths[j]? = some (Except.ok raw)) :
    load_images paths image_size = Except.error e := by
  unfold load_images
  rw [load_images_loop_first_error image_size paths k e hk hbefore]

/-- C7 witness: one good path, then a decode failure, then more paths; the
first error is the result. -/
theorem load_images_fail_fast_witness :
    (([Except.ok [0, 0, 0], Except.error "bad", Except.error "worse"] :
        List DecodeResult)[1]? = some (Except.error "bad"))
    ∧ (∀ j < 1, ∃ raw,
        ([Except.ok [0, 0, 0], Except.error "bad", Except.error "worse"] :
          List DecodeResult)[j]? = some (Except.ok raw))
    ∧ load_images
        [Except.ok [0, 0, 0], Except.error "bad", Except.error "worse"] 224
        = Except.error "bad" :=
  ⟨rfl,
   fun j hj => by
     interval_cases j
     exact ⟨[0, 0, 0], rfl⟩,
   load_images_fail_fast 224
     [Except.ok [0, 0, 0], Except.error "bad", Except.error "worse"] 1 "bad"
     rfl (fun j hj => by
       interval_cases j
       exact ⟨[0, 0, 0], rfl⟩)⟩

/-- C10: stacking an empty path list fails (no batch of zero tensors), so on
every success path of `load_images` the number of images is at least 1 — the
division `probability_vec.len() / vec_imgs.len()` in the report stage never
divides by zero. -/
theorem load_images_empty_fails (image_size : Nat) (paths : List DecodeResult)
    (hempty : paths = []) :
    (∃ e, load_images paths image_size = Except.error e)
    ∧ ∀ (other : List DecodeResult) (t : Tensor ℚ),
        load_images other image_size = Except.ok t → 0 < other.length := by
  constructor
  · subst hempty
    exact ⟨"stack requires at least one tensor", rfl⟩
  · intro other t h
    cases other with
    | nil => simp [load_images, load_images_loop, Tensor.stack] at h
    | cons a l => simp

/-- C10 witness: the empty path list at `image_size = 224`. -/
theorem load_images_empty_fails_witness :
    (([] : List DecodeResult) = [])
    ∧ ((∃ e, load_images [] 224 = Except.error e)
      ∧ ∀ (other : List DecodeResult) (t : Tensor ℚ),
          load_images other 224 = Except.ok t → 0 < other.length) :=
  ⟨rfl, load_images_empty_fails 224 [] rfl⟩

/-! ### Claim theorems: tokenization -/

theorem pad_token_vec_of_le (max_len pad_id : Nat) (tv : List Nat)
    (h : tv.length ≤ max_len) :
    pad_token_vec max_len pad_id tv
      = some (tv ++ List.replicate (max_len - tv.length) pad_id) := by
  simp only [pad_token_vec, checked_sub, if_pos h]
  by_cases h2 : 0 < max_len - tv.length
  · simp [h2]
  · have h0 : max_len - tv.length = 0 := by omega
    simp [h0]

theorem pad_tokens_loop_of_le (max_len pad_id : Nat) :
    ∀ tokens : List (List Nat), (∀ tv ∈ tokens, tv.length ≤ max_len) →
      pad_tokens_loop max_len pad_id tokens
        = some (tokens.map (fun tv =>
            tv ++ List.replicate (max_len - tv.length) pad_id)) := by
  intro tokens
  induction tokens with
  | nil => intro _; rfl
  | cons tv rest ih =>
      intro hfit
      have h1 := pad_token_vec_of_le max_len pad_id tv (hfit tv (by simp))
      have h2 := ih (fun u hu => hfit u (List.mem_cons_of_mem _ hu))
      simp [pad_tokens_loop, h1, h2]

/-- C5: the padding loop computes the pad amount as
`max_len - natural length` and appends exactly that many `pad_id`s — it
never truncates (each row keeps its natural encoding as its leading part).
Under the precondition that every natural length is at most `max_len` the
unsigned subtraction never underflows and every row ends up exactly
`max_len` long; when the precondition fails for a row, the subtraction
underflows (a panic in the Rust source — there is no length check). -/
theorem padding_never_truncates (max_len pad_id : Nat)
    (tokens : List (List Nat)) (hfit : ∀ tv ∈ tokens, tv.length ≤ max_len) :
    (pad_tokens_loop max_len pad_id tokens
      = some (tokens.map (fun tv =>
          tv ++ List.replicate (max_len - tv.length) pad_id)))
    ∧ (∀ tv ∈ tokens,
        (tv ++ List.replicate (max_len - tv.length) pad_id).length = max_len
        ∧ (tv ++ List.replicate (max_len - tv.length) pad_id).take tv.length
            = tv)
    ∧ (∀ tv : List Nat, max_len < tv.length →
        pad_token_vec max_len pad_id tv = none) := by
  refine ⟨pad_tokens_loop_of_le max_len pad_id tokens hfit, ?_, ?_⟩
  · intro tv htv
    have hle := hfit tv htv
    constructor
    · rw [List.length_append, List.length_replicate]
      omega
    · exact List.take_left tv _
  · intro tv hgt
    simp only [pad_token_vec, checked_sub, if_neg (by omega : ¬tv.length ≤ max_len)]

/-- C5 witness: two short rows pad to length 3; an over-long row underflows. -/
theorem padding_never_truncates_witness :
    (∀ tv ∈ ([[1, 2], [5]] : List (List Nat)), tv.length ≤ 3)
    ∧ ((pad_tokens_loop 3 9 [[1, 2], [5]]
        = some (([[1, 2], [5]] : List (List Nat)).map (fun tv =>
            tv ++ List.replicate (3 - tv.length) 9)))
      ∧ (∀ tv ∈ ([[1, 2], [5]] : List (List Nat)),
          (tv ++ List.replicate (3 - tv.length) 9).length = 3
          ∧ (tv ++ List.replicate (3 - tv.length) 9).take tv.length = tv)
      ∧ (∀ tv : List Nat, 3 < tv.length → pad_token_vec 3 9 tv = none)) :=
  ⟨by decide, padding_never_truncates 3 9 [[1, 2], [5]] (by decide)⟩

theorem new2d_of_const_length (max_len : Nat) :
    ∀ rows : List (List Nat), rows ≠ [] → (∀ u ∈ rows, u.length = max_len) →
      Tensor.new2d rows = Except.ok ⟨[rows.length, max_len], rows.flatten⟩ := by
  intro rows hne hconst
  obtain ⟨r₀, rest, rfl⟩ := List.exists_cons_of_ne_nil hne
  have hr₀ : r₀.length = max_len := hconst r₀ (by simp)
  simp only [Tensor.new2d]
  rw [if_pos (fun u hu => (hconst u hu).trans hr₀.symm), hr₀]

/-- C4 counterexample: for the empty text list the claim predicts a token
matrix of shape `(0, max_len)`, but `tokenize_sequences` returns an error and
no matrix at all (§8 scenario: an empty text list fails). -/
theorem tokenize_empty_counterexample :
    tokenize_sequences 64 1 (fun _ => [2]) (some [])
      = Except.error "empty array" := rfl

/-- C4 (amended: nonempty text list): for every nonempty list of texts whose
natural encoded lengths are all at most `max_len`, `tokenize_sequences`
returns the matrix of shape `(len(texts), max_len)` whose row `i` is the
natural encoding of text `i` right-padded with `pad_id` to exactly `max_len`
— row order matches input order exactly. -/
theorem tokenize_pads_rows_in_order (max_len pad_id : Nat)
    (encode : String → List Nat) (texts : List String) (hne : texts ≠ [])
    (hfit : ∀ s ∈ texts, (encode s).length ≤ max_len) :
    ∃ t, tokenize_sequences max_len pad_id encode (some texts)
        = Except.ok (t, texts)
      ∧ t.shape = [texts.length, max_len]
      ∧ t.data.length = texts.length * max_len
      ∧ ∀ i < texts.length,
          (t.data.drop (i * max_len)).take max_len
            = encode (texts.getD i "")
              ++ List.replicate
                  (max_len - (encode (texts.getD i "")).length) pad_id := by
  have hfit2 : ∀ tv ∈ texts.map encode, tv.length ≤ max_len := by
    intro tv htv
    rcases List.mem_map.mp htv with ⟨s, hs, rfl⟩
    exact hfit s hs
  have hloop := pad_tokens_loop_of_le max_len pad_id (texts.map encode) hfit2
  have hpadded : (texts.map encode).map (fun tv =>
        tv ++ List.replicate (max_len - tv.length) pad_id)
      = texts.map (fun s =>
          encode s ++ List.replicate (max_len - (encode s).length) pad_id) := by
    rw [List.map_map]
    rfl
  have hconst : ∀ u ∈ texts.map (fun s =>
      encode s ++ List.replicate (max_len - (encode s).length) pad_id),
      u.length = max_len := by
    intro u hu
    rcases List.mem_map.mp hu with ⟨s, hs, rfl⟩
    rw [List.length_append, List.length_replicate]
    have := hfit s hs
    omega
  have hnew := new2d_of_const_length max_len
    (texts.map (fun s =>
      encode s ++ List.replicate (max_len - (encode s).length) pad_id))
    (by
      intro hcon
      exact hne (List.map_eq_nil_iff.mp hcon))
    hconst
  refine ⟨⟨[texts.length, max_len],
      (texts.map (fun s =>
        encode s ++ List.replicate (max_len - (encode s).length) pad_id)).flatten⟩,
    ?_, rfl, ?_, ?_⟩
  · simp only [tokenize_sequences, Option.getD_some, hloop, hpadded, hnew]
    rw [List.length_map]
  · show ((texts.map (fun s =>
        encode s ++ List.replicate (max_len - (encode s).length) pad_id)).flatten).length = _
    rw [length_flatten_of_const max_len _ hconst, List.length_map]
  · intro i hi
    show (((texts.map (fun s =>
        encode s ++ List.replicate (max_len - (encode s).length) pad_id)).flatten).drop
          (i * max_len)).take max_len = _
    rw [flatten_drop_take max_len _ i hconst (by simpa using hi)]
    exact getD_map_of_lt (fun s =>
      encode s ++ List.replicate (max_len - (encode s).length) pad_id)
      texts i "" [] hi

/-- C4 witness: two texts, `max_len = 4`; rows are padded in input order. -/
theorem tokenize_pads_rows_in_order_witness :
    ((["a", "bb"] : List String) ≠ [])
    ∧ (∀ s ∈ (["a", "bb"] : List String),
        ((fun t : String => [t.length]) s).length ≤ 4)
    ∧ (∃ t, tokenize_sequences 4 7 (fun t : String => [t.length])
          (some ["a", "bb"]) = Except.ok (t, ["a", "bb"])
        ∧ t.shape = [(["a", "bb"] : List String).length, 4]
        ∧ t.data.length = (["a", "bb"] : List String).length * 4
        ∧ ∀ i < (["a", "bb"] : List String).length,
            (t.data.drop (i * 4)).take 4
              = (fun t : String => [t.length])
                  ((["a", "bb"] : List String).getD i "")
                ++ List.replicate
                    (4 - ((fun t : String => [t.length])
                      ((["a", "bb"] : List String).getD i "")).length) 7) :=
  ⟨by simp,
   by
     intro s hs
     show (1 : Nat) ≤ 4
     norm_num,
   tokenize_pads_rows_in_order 4 7 (fun t : String => [t.length]) ["a", "bb"]
     (by simp)
     (by
       intro s hs
       show (1 : Nat) ≤ 4
       norm_num)⟩

/-- C8: when the caller supplies an empty list of texts the pipeline fails
with an error before any report exists — it never returns an empty report.
This holds for every image list, scoring function and tokenizer. -/
theorem empty_texts_fail_before_report (image_size max_len pad_id : Nat)
    (score : Tensor ℚ → Tensor Nat → Except String (List (List ℝ)))
    (paths : List DecodeResult) (vec_imgs : List String)
    (encode : String → List Nat) :
    ∃ e, run_pipeline image_size max_len pad_id score paths vec_imgs encode
        (some []) = Except.error e := by
  have htok : tokenize_sequences max_len pad_id encode (some [])
      = Except.error "empty array" := rfl
  unfold run_pipeline
  cases hload : load_images paths image_size with
  | error e => exact ⟨e, rfl⟩
  | ok images => exact ⟨"empty array", rfl⟩

end Siglip
